import Mathlib

/-!
Verification of the ominzk control-flow lowering and instruction-emission
pipeline against its natural-language specification.

The development shallowly embeds:
* the IR `Module` container (crates/ir/src/ir/module.rs);
* the MidenVM instruction emitter and module compiler
  (crates/codegen-midenvm/src/codegen/emit.rs, crates/codegen-midenvm/src/codegen.rs);
* the Valida frame/slot lowering offsets
  (crates/ir-transform/src/valida/lowering/func_lowering.rs);
* a small Triton-style target machine together with the emitted procedures
  recorded in the golden outputs of the semantic tests
  (crates/codegen-tritonvm/src/codegen/sem_tests/...), used to settle the
  branch-signal propagation claims.
-/

namespace Ominzk

/-! ## IR instruction model

The closed tagged-variant instruction set.  The variants matched by the
MidenVM emitter (`emit.rs`) are kept with their source names; the remaining
variants are the ones named by the data model in the specification
(`Br`, `BrIf`, locals/globals accessors, flat `Block`/`Loop`/`End` markers). -/

inductive MidenExt where
  | SDepth
  | While
  | End
deriving DecidableEq, Repr

inductive Inst where
  | I32Const (value : Int)
  | I32Add
  | Dup (idx : Nat)
  | Swap (idx : Nat)
  | Call (func_idx : Nat)
  | Return
  | End
  | Block
  | Loop
  | Br (relative_depth : Nat)
  | BrIf (relative_depth : Nat)
  | LocalGet (idx : Nat)
  | LocalSet (idx : Nat)
  | LocalTee (idx : Nat)
  | GlobalGet (idx : Nat)
  | GlobalSet (idx : Nat)
  | Ext (ext : MidenExt)
deriving DecidableEq, Repr

/-- Modelled from the spec: a `Func` is an ordered sequence of instructions;
the function name is carried for deterministic labelling of emitted
procedures (the `Func` struct itself is outside the provided sources). -/
structure Func where
  name : String
  instructions : List Inst
deriving DecidableEq, Repr

/-! ## Module (crates/ir/src/ir/module.rs)

`Module` holds a private `Vec<Func>` and a public `start_func_idx`. -/

structure Module where
  functions : List Func
  start_func_idx : Nat
deriving DecidableEq, Repr

def Module.new (functions : List Func) (start_func_idx : Nat) : Module :=
  { functions := functions, start_func_idx := start_func_idx }

/-- `Module::function` uses `Vec::get`, hence returns an `Option`. -/
def Module.function (m : Module) (idx : Nat) : Option Func :=
  m.functions.get? idx

/-- `Module::push_function` appends and returns the new function's index. -/
def Module.push_function (m : Module) (func : Func) : Module × Nat :=
  ({ m with functions := m.functions ++ [func] }, m.functions.length)

/-- `Module::set_function` indexes the vector unchecked (`self.functions[idx] = func`);
an out-of-range index panics, modelled as `none`. -/
def Module.set_function (m : Module) (idx : Nat) (func : Func) : Option Module :=
  if idx < m.functions.length then
    some { m with functions := m.functions.set idx func }
  else
    none

/-- Modelled from the spec: the per-index function-name map consumed by
`func_index_to_label` (the `c2zk-codegen-shared` crate is outside the
provided sources); names are the functions' own names, in definition order. -/
def Module.funcName (m : Module) (idx : Nat) : String :=
  ((m.functions.get? idx).map Func.name).getD "unknown"

/-- Validity of the start-function index, as stated by the specification's
module invariant. -/
def Module.startValid (m : Module) : Prop :=
  m.start_func_idx < m.functions.length

instance (m : Module) : Decidable m.startValid := by
  unfold Module.startValid; infer_instance

/-! ## MidenVM emitter (crates/codegen-midenvm/src/codegen/emit.rs)

`MidenInst` models the opcodes produced through `MidenAssemblyBuilder`;
`emit_inst` returns the opcodes it pushes into the sink, or the typed
`UnsupportedInstruction` error from the wildcard match arm. -/

inductive MidenInst where
  | proc (label : String)
  | begin
  | exec (label : String)
  | end_
  | push (v : Int)
  | add
  | dup (n : Nat)
  | swap (n : Nat)
  | sdepth
  | while_true
deriving DecidableEq, Repr

inductive EmitError where
  | UnsupportedInstruction (ins : Inst)
deriving DecidableEq, Repr

def emit_inst (func_names : Nat → String) (ins : Inst) :
    Except EmitError (List MidenInst) :=
  match ins with
  | .End => .ok [.end_]
  | .Return => .ok []
  | .Dup idx => .ok [.dup idx]
  | .Swap idx => .ok [.swap idx]
  | .Call func_idx => .ok [.exec (func_names func_idx)]
  | .I32Const value => .ok [.push value]
  | .I32Add => .ok [.add]
  | .Ext .SDepth => .ok [.sdepth]
  | .Ext .While => .ok [.while_true]
  | .Ext .End => .ok [.end_]
  | _ => .error (.UnsupportedInstruction ins)

/-- `compile_function` walks the instruction list, emitting each instruction
in order into the sink and returning at the first error
(crates/codegen-midenvm/src/codegen.rs, `compile_function`). -/
def compile_function (func_names : Nat → String) :
    List Inst → Except EmitError (List MidenInst)
  | [] => .ok []
  | i :: rest =>
    match emit_inst func_names i with
    | .error e => .error e
    | .ok ops =>
      match compile_function func_names rest with
      | .error e => .error e
      | .ok more => .ok (ops ++ more)

/-- The per-procedure section of `compile_module`'s main loop: for each
function, a `proc` header followed by the function's compiled body, in
definition order. -/
def compile_procs (func_names : Nat → String) :
    Nat → List Func → Except EmitError (List MidenInst)
  | _, [] => .ok []
  | idx, f :: rest =>
    match compile_function func_names f.instructions with
    | .error e => .error e
    | .ok body =>
      match compile_procs func_names (idx + 1) rest with
      | .error e => .error e
      | .ok more => .ok ((MidenInst.proc (func_names idx) :: body) ++ more)

/-- `compile_module` (crates/codegen-midenvm/src/codegen.rs): emits every
procedure in definition order, then appends the entry block
`begin / exec start / end`. -/
def compile_module (m : Module) : Except EmitError (List MidenInst) :=
  match compile_procs m.funcName 0 m.functions with
  | .error e => .error e
  | .ok procs =>
    .ok (procs ++
      [MidenInst.begin, MidenInst.exec (m.funcName m.start_func_idx), MidenInst.end_])

/-! ## Valida lowering offsets
(crates/ir-transform/src/valida/lowering/func_lowering.rs) -/

/-- Source slot read by the lowering of `local.get i`
(`convert_func_arg_and_locals`): parameters live at `fp + 12 + 4*i`,
declared locals at `fp - (i+1)*4`. -/
def localGetFromFp (num_inputs zero_based_index : Int) : Int :=
  if zero_based_index < num_inputs then 12 + zero_based_index * 4
  else -(zero_based_index + 1) * 4

/-- Destination slot written by the lowering of `local.set i`
(`convert_func_arg_and_locals`): always `fp - (i+1)*4`, with no
parameter case. -/
def localSetToFp (zero_based_index : Int) : Int :=
  -(zero_based_index + 1) * 4

/-- Offsets computed by `convert_call_ops` for a lowered `Call` at
operand-stack frame-pointer offset `fp_last_stack_height`. -/
structure CallLoweringOffsets where
  fp_for_return_address : Int
  return_fp_value : Int
  fp_to_restore_after_call : Int
deriving DecidableEq, Repr

def convert_call_op (fp_last_stack_height : Int) : CallLoweringOffsets :=
  { fp_for_return_address := fp_last_stack_height - 12
    return_fp_value := (fp_last_stack_height - 12) + 4
    fp_to_restore_after_call := fp_last_stack_height - 12 }

/-! ## Triton-style target machine

Modelled from the spec: the target machine exposes only procedure
call/return and the conditional-skip primitive (`skiz` skips exactly the
next instruction when the popped value is zero), plus a value stack, an
addressable memory region, and a public output tape.  Instruction
vocabulary and semantics follow the opcodes appearing in the golden
outputs of the semantic tests (push/pop/add/mul/eq/dup/swap/skiz/call/
return/recurse/read_mem/write_mem/write_io); `recurse` is the tail
self-call that re-enters the current procedure from its start. -/

inductive TInst where
  | push (v : Int)
  | pop
  | add
  | mul
  | eq
  | dup (n : Nat)
  | swap (n : Nat)
  | skiz
  | call (p : String)
  | ret
  | recurse
  | readMem
  | writeMem
  | write_io
  | nop
  | halt
deriving DecidableEq, Repr

/-- A program maps procedure labels to their instruction sequences. -/
def TProgram := String → List TInst

structure TState where
  stack : List Int
  ram : Int → Int
  out : List Int

/-- Store a value at an address of the machine's memory region. -/
def TState.store (s : TState) (a v : Int) : TState :=
  { s with ram := fun x => if x = a then v else s.ram x }

/-- Fuel-indexed interpreter.  Fuel is consumed only on `call` and
`recurse`, so it bounds the call depth; `none` means out of fuel or a
stuck configuration (e.g. stack underflow). -/
def run (prog : TProgram) (fuel : Nat) (body rest : List TInst) (s : TState) :
    Option TState :=
  match rest with
  | [] => some s
  | .push v :: rest => run prog fuel body rest { s with stack := v :: s.stack }
  | .pop :: rest =>
    match s.stack with
    | _ :: t => run prog fuel body rest { s with stack := t }
    | [] => none
  | .add :: rest =>
    match s.stack with
    | a :: b :: t => run prog fuel body rest { s with stack := (a + b) :: t }
    | _ => none
  | .mul :: rest =>
    match s.stack with
    | a :: b :: t => run prog fuel body rest { s with stack := (a * b) :: t }
    | _ => none
  | .eq :: rest =>
    match s.stack with
    | a :: b :: t =>
      run prog fuel body rest { s with stack := (if a = b then 1 else 0) :: t }
    | _ => none
  | .dup n :: rest =>
    match s.stack.get? n with
    | some v => run prog fuel body rest { s with stack := v :: s.stack }
    | none => none
  | .swap n :: rest =>
    match s.stack, s.stack.get? n with
    | top :: _, some v =>
      run prog fuel body rest { s with stack := (s.stack.set 0 v).set n top }
    | _, _ => none
  | .skiz :: rest =>
    match s.stack with
    | v :: t =>
      if v = 0 then
        match rest with
        | [] => some { s with stack := t }
        | _ :: rest2 => run prog fuel body rest2 { s with stack := t }
      else run prog fuel body rest { s with stack := t }
    | [] => none
  | .call p :: rest =>
    match fuel with
    | 0 => none
    | f + 1 =>
      match run prog f (prog p) (prog p) s with
      | some s2 => run prog (f + 1) body rest s2
      | none => none
  | .ret :: _ => some s
  | .recurse :: _ =>
    match fuel with
    | 0 => none
    | f + 1 => run prog f body body s
  | .readMem :: rest =>
    match s.stack with
    | a :: t => run prog fuel body rest { s with stack := s.ram a :: a :: t }
    | [] => none
  | .writeMem :: rest =>
    match s.stack with
    | v :: a :: t =>
      run prog fuel body rest { (s.store a v) with stack := a :: t }
    | _ => none
  | .write_io :: rest =>
    match s.stack with
    | v :: t =>
      run prog fuel body rest { s with stack := t, out := s.out ++ [v] }
    | [] => none
  | .nop :: rest => run prog fuel body rest s
  | .halt :: _ => some s
termination_by (fuel, rest.length)

/-! ## Emitted code of the nested-block-branch test

The procedure bodies below transcribe the golden Triton output recorded in
crates/codegen-tritonvm/src/codegen/sem_tests/block/nested_block_br.rs.
Global `i` lives at address `2147482623 - 4*i`; global 0 is the locals
cursor and global 1 is the branch-signal register. -/

def globals_get_body : List TInst :=
  [.push (-4), .mul, .push 2147482623, .add, .readMem, .swap 1, .pop, .ret]

def globals_set_body : List TInst :=
  [.push (-4), .mul, .push 2147482623, .add, .swap 1, .writeMem, .pop, .ret]

def pub_output_body : List TInst :=
  [.push 0, .call "globals_get", .push (-4), .add, .dup 0, .swap 2, .writeMem,
   .pop, .push 0, .call "globals_set", .push 0, .call "globals_get", .readMem,
   .swap 1, .pop, .write_io, .push 0, .call "globals_get", .push 4, .add,
   .push 0, .call "globals_set", .ret]

def init_mem_for_locals_body : List TInst :=
  [.push 2147483647, .push 0, .call "globals_set", .ret]

def main_body : List TInst :=
  [.call "init_mem_for_locals", .call "main_l0_b0", .push 7,
   .call "c2zk_stdlib_pub_output", .ret, .ret]

def main_l0_b0_body : List TInst :=
  [.push 3, .call "c2zk_stdlib_pub_output", .call "main_l0_b0_l1_b0",
   .call "next_br_propagation", .skiz, .ret, .push 9,
   .call "c2zk_stdlib_pub_output", .ret]

def main_l0_b0_l1_b0_body : List TInst :=
  [.push 8, .call "c2zk_stdlib_pub_output", .push 2, .push 1,
   .call "globals_set", .ret, .push 11, .call "c2zk_stdlib_pub_output", .ret]

def next_br_propagation_body : List TInst :=
  [.push 1, .call "globals_get", .dup 0, .push 0, .eq, .skiz, .ret,
   .push (-1), .add, .dup 0, .push 1, .call "globals_set", .ret]

def progNBB : TProgram := fun p =>
  if p = "globals_get" then globals_get_body
  else if p = "globals_set" then globals_set_body
  else if p = "c2zk_stdlib_pub_output" then pub_output_body
  else if p = "init_mem_for_locals" then init_mem_for_locals_body
  else if p = "main" then main_body
  else if p = "main_l0_b0" then main_l0_b0_body
  else if p = "main_l0_b0_l1_b0" then main_l0_b0_l1_b0_body
  else if p = "next_br_propagation" then next_br_propagation_body
  else []

/-- Address of the branch-signal register (global 1). -/
def signalAddr : Int := 2147482619

/-- Write a value into the branch-signal register. -/
def setSignal (s : TState) (v : Int) : TState := s.store signalAddr v

/-- Modelled from the spec: the lowering of `Br(d)` emits code that stores
`d + 1` into the signal register and terminates the outlined procedure via
return; instruction shape as in the golden output (`push (d+1); push 1;
call globals_set; return`). -/
def lowerBr (d : Nat) : List TInst :=
  [.push ((d : Int) + 1), .push 1, .call "globals_set", .ret]

/-- The propagation check emitted at a call site of an outlined block
procedure, as recorded in the golden output: the helper call followed by
`skiz; return` gating the caller's fallthrough code. -/
def propagationCheckSite : List TInst :=
  [.call "next_br_propagation", .skiz, .ret]

/-- The propagation code emitted after the call to a loop body inside an
outlined loop procedure, as recorded in the golden output of the fib test
(`push -1; add; skiz; return; recurse`). -/
def loopDispatch : List TInst :=
  [.push (-1), .add, .skiz, .ret, .recurse]

/-! ## Concrete inputs used by counterexamples and witnesses -/

/-- A one-function module: `f1` holds `i32.const 1; return`. -/
def moduleOne : Module :=
  Module.new [{ name := "f1", instructions := [.I32Const 1, .Return] }] 0

/-- Follows the claim's words (refinement target, not the source): the
rendering predicted by the specification sentence for the instruction
sink — an entry trampoline first, followed by every procedure. -/
def specRenderTrampolineFirst (m : Module) : Except EmitError (List MidenInst) :=
  match compile_procs m.funcName 0 m.functions with
  | .error e => .error e
  | .ok procs =>
    .ok ([MidenInst.begin, MidenInst.exec (m.funcName m.start_func_idx),
          MidenInst.end_] ++ procs)

/-- Machine state whose branch-signal register holds 1 and whose memory is
otherwise zero. -/
def stateSigOne : TState :=
  { stack := [], ram := fun a => if a = signalAddr then 1 else 0, out := [] }

/-- The all-zero initial machine state. -/
def stateZero : TState :=
  { stack := [], ram := fun _ => 0, out := [] }

/-! ## Theorems -/

/-- Validation of the embedded golden program: executing the compiled
output of the nested-block-branch test from the entry point produces
exactly the public outputs the semantic test expects, `3, 8, 7` (the code
after the inner `br 1`, the trailing code of the outer block, and nothing
else are skipped). -/
theorem nested_block_br_golden_run :
    (run progNBB 9 [] [.call "main", .halt] stateZero).map TState.out =
      some [3, 8, 7] := by
  simp [run, progNBB, globals_get_body, globals_set_body, pub_output_body,
    init_mem_for_locals_body, main_body, main_l0_b0_body, main_l0_b0_l1_b0_body,
    next_br_propagation_body, TState.store, stateZero]

/-- C1: the compiled output for `Br(d)` inside an outlined block procedure
is exactly the store-and-return sequence (witnessed syntactically in the
golden inner procedure for `br 1`), and running that sequence stores
`d + 1` into the branch-signal register and immediately returns from the
current procedure: the result is independent of the instructions that
follow the branch, none of which execute, and the stack, memory and
output are otherwise untouched. -/
theorem c1_br_lowering_stores_and_returns :
    (main_l0_b0_l1_b0_body =
      [.push 8, .call "c2zk_stdlib_pub_output"] ++ lowerBr 1 ++
      [.push 11, .call "c2zk_stdlib_pub_output", .ret]) ∧
    ∀ (d f : Nat) (body rest : List TInst) (s : TState),
      run progNBB (f + 1) body (lowerBr d ++ rest) s =
        some (setSignal s ((d : Int) + 1)) := by
  refine ⟨by decide, ?_⟩
  intro d f body rest s
  simp [run, lowerBr, progNBB, globals_set_body, setSignal, TState.store,
    signalAddr]

/-- C2 (counterexample): with the branch-signal register holding 1 (a
nonzero value), the emitted propagation check does not return immediately
from the caller with the decremented signal — the caller's fallthrough
code does execute (here it writes 99 to the output), refuting the claim's
described behaviour for nonzero signal values. -/
theorem c2_propagation_check_counterexample :
    ¬ (run progNBB 9 [] (propagationCheckSite ++ [.push 99, .write_io])
          stateSigOne =
        some (setSignal stateSigOne (stateSigOne.ram signalAddr - 1))) := by
  intro h
  have h2 := congrArg (Option.map TState.out) h
  simp [run, propagationCheckSite, progNBB, next_br_propagation_body,
    globals_get_body, globals_set_body, TState.store, setSignal, signalAddr,
    stateSigOne] at h2

/-- C2 (amended): the emitted propagation check reads the signal register;
if it is 0 the caller continues with its fallthrough code unchanged; if it
is nonzero the check decrements it and writes it back, and then returns
immediately from the caller only when the decremented value is still
nonzero — when the decrement reaches 0 (the unwind has arrived at its
target level) the caller continues with its fallthrough code instead. -/
theorem c2_propagation_check_amended :
    ∀ (f : Nat) (body rest : List TInst) (s : TState),
      run progNBB (f + 2) body (propagationCheckSite ++ rest) s =
        if s.ram signalAddr = 0 then run progNBB (f + 2) body rest s
        else if s.ram signalAddr = 1 then
          run progNBB (f + 2) body rest (setSignal s 0)
        else some (setSignal s (s.ram signalAddr - 1)) := by
  intro f body rest s
  by_cases h0 : s.ram signalAddr = 0
  · rw [if_pos h0]
    have h0' : s.ram (2147482619 : Int) = 0 := by simpa [signalAddr] using h0
    simp [run, propagationCheckSite, progNBB, next_br_propagation_body,
      globals_get_body, globals_set_body, TState.store, h0']
  · rw [if_neg h0]
    by_cases h1 : s.ram signalAddr = 1
    · rw [if_pos h1]
      have h1' : s.ram (2147482619 : Int) = 1 := by simpa [signalAddr] using h1
      simp [run, propagationCheckSite, progNBB, next_br_propagation_body,
        globals_get_body, globals_set_body, TState.store, setSignal, signalAddr,
        h1']
    · rw [if_neg h1]
      have h0' : s.ram (2147482619 : Int) ≠ 0 := by simpa [signalAddr] using h0
      have hh1 : s.ram (2147482619 : Int) ≠ 1 := by simpa [signalAddr] using h1
      have h1' : ¬((0 : Int) = s.ram (2147482619 : Int)) := fun h => h0' h.symm
      have h2' : ¬((-1 : Int) + s.ram (2147482619 : Int) = 0) := by omega
      have h3' : (-1 : Int) + s.ram (2147482619 : Int) =
          s.ram (2147482619 : Int) - 1 := by ring
      have h4' : ¬(s.ram (2147482619 : Int) - 1 = 0) := by omega
      simp [run, propagationCheckSite, progNBB, next_br_propagation_body,
        globals_get_body, globals_set_body, TState.store, setSignal, signalAddr,
        h1', h2', h3', h4']

/-- C3: in an outlined loop procedure, the propagation code emitted after
the call to the loop body decrements the signal value on top of the
stack; when the decremented value hits 0 it re-invokes the current
procedure via the tail self-call `recurse` (neither returning nor falling
through), and otherwise the procedure returns to continue unwinding. -/
theorem c3_loop_dispatch_recurse :
    ∀ (prog : TProgram) (f : Nat) (body rest : List TInst) (v : Int)
      (t : List Int) (ram : Int → Int) (o : List Int),
      run prog (f + 1) body (loopDispatch ++ rest) ⟨v :: t, ram, o⟩ =
        if v - 1 = 0 then run prog f body body ⟨t, ram, o⟩
        else some ⟨t, ram, o⟩ := by
  intro prog f body rest v t ram o
  by_cases h : v - 1 = 0
  · simp [run, loopDispatch, h, show (-1 : Int) + v = 0 by omega]
  · simp [run, loopDispatch, h, show ¬((-1 : Int) + v = 0) by omega]

/-- C4: an instruction outside the emitter's opcode table yields the typed
`UnsupportedInstruction` error carrying that exact instruction, and
compiling a function whose body contains such an instruction (after any
prefix of supported instructions) stops at the first offender, returning
that error and no instruction output. -/
theorem c4_unsupported_instruction_error :
    ∀ (func_names : Nat → String) (pre : List Inst) (i : Inst) (post : List Inst),
      (∀ j ∈ pre, (emit_inst func_names j).isOk) →
      (emit_inst func_names i).isOk = false →
      emit_inst func_names i = .error (.UnsupportedInstruction i) ∧
      compile_function func_names (pre ++ i :: post) =
        .error (.UnsupportedInstruction i) := by
  intro func_names pre i post hpre hbad
  have hemit : emit_inst func_names i = .error (.UnsupportedInstruction i) := by
    cases i <;> try simp_all [emit_inst, Except.isOk, Except.toBool]
    rename_i e
    cases e <;> simp_all [emit_inst, Except.isOk, Except.toBool]
  refine ⟨hemit, ?_⟩
  induction pre with
  | nil => simp only [List.nil_append, compile_function, hemit]
  | cons j pre ih =>
    have hj : (emit_inst func_names j).isOk := hpre j (by simp)
    cases hje : emit_inst func_names j with
    | error e => rw [hje] at hj; simp [Except.isOk, Except.toBool] at hj
    | ok ops =>
      have hrest := ih (fun j hm => hpre j (by simp [hm]))
      simp only [List.cons_append, compile_function, hje, List.append_eq, hrest]

/-- C4 (witness): the unsupported `br 0` after a supported `i32.add` makes
function compilation fail with the typed error naming `br 0`, and the
trailing `i32.const 1` is never reached. -/
theorem c4_unsupported_instruction_error_witness :
    compile_function (fun _ => "f") [.I32Add, .Br 0, .I32Const 1] =
      .error (.UnsupportedInstruction (.Br 0)) :=
  (c4_unsupported_instruction_error (fun _ => "f") [.I32Add] (.Br 0)
    [.I32Const 1] (by decide) (by decide)).2

/-- C5 (code behaviour at the failing input): `emit_inst` emits nothing
for `Return` unconditionally, so a `Return` that does not immediately
precede the implicit `End` — here it is followed by `i32.const 1` — is
still silently dropped, contradicting the claim (and the code's own TODO
comment, which notes the drop is valid only when the next instruction is
`End`). -/
theorem c5_return_always_dropped :
    emit_inst (fun _ => "f") .Return = .ok [] ∧
    compile_function (fun _ => "f") [.Return, .I32Const 1] =
      .ok [.push 1] :=
  ⟨rfl, rfl⟩

/-- C6 (code behaviour at the failing input): for a function with one
parameter, the lowering of `local.get 0` reads the parameter slot
`fp + 12` while the lowering of `local.set 0` writes `fp - 4`; the two
slots differ, contradicting the claim that get and set target the same
slot for every valid local index. -/
theorem c6_param_slot_mismatch :
    localGetFromFp 1 0 = 12 ∧ localSetToFp 0 = -4 ∧
    localGetFromFp 1 0 ≠ localSetToFp 0 := by
  decide

/-- C7: the call lowering reserves the 12-byte (3 cells of 4 bytes)
linkage header below the incoming arguments: for a lowered call at
operand-stack frame-pointer offset `h`, the return-address slot is at
`h - 12`, the saved caller frame-pointer value is that address plus 4,
and the frame pointer restored after the call is the same `h - 12`
displacement. -/
theorem c7_call_linkage_offsets :
    ∀ h : Int,
      (convert_call_op h).fp_for_return_address = h - 12 ∧
      (convert_call_op h).return_fp_value =
        (convert_call_op h).fp_for_return_address + 4 ∧
      (convert_call_op h).fp_to_restore_after_call = h - 12 :=
  fun _ => ⟨rfl, rfl, rfl⟩

/-- C8 (counterexample): for a concrete one-function module, the compiled
output is not the rendering predicted by the claim (entry trampoline
first, procedures after): the code emits the procedures first and the
entry block last. -/
theorem c8_trampoline_order_counterexample :
    compile_module moduleOne ≠ specRenderTrampolineFirst moduleOne := by
  intro h
  have h1 : compile_module moduleOne =
      .ok [MidenInst.proc "f1", MidenInst.push 1, MidenInst.begin,
        MidenInst.exec "f1", MidenInst.end_] := rfl
  have h2 : specRenderTrampolineFirst moduleOne =
      .ok [MidenInst.begin, MidenInst.exec "f1", MidenInst.end_,
        MidenInst.proc "f1", MidenInst.push 1] := rfl
  rw [h1, h2] at h
  exact absurd (Except.ok.inj h) (by decide)

/-- C8 (amended): the compiled output consists of every procedure in
definition order — each one a `proc` header followed by its compiled
body — followed (not preceded) by the entry trampoline that executes the
start function; output is a pure function of the module, hence
reproducible. -/
theorem c8_procs_then_trampoline :
    (∀ (m : Module) (out : List MidenInst),
      compile_module m = .ok out →
      ∃ procs, compile_procs m.funcName 0 m.functions = .ok procs ∧
        out = procs ++ [MidenInst.begin,
          MidenInst.exec (m.funcName m.start_func_idx), MidenInst.end_]) ∧
    (∀ (names : Nat → String) (idx : Nat) (f : Func) (fs : List Func)
        (body more : List MidenInst),
      compile_function names f.instructions = .ok body →
      compile_procs names (idx + 1) fs = .ok more →
      compile_procs names idx (f :: fs) =
        .ok ((MidenInst.proc (names idx) :: body) ++ more)) := by
  constructor
  · intro m out h
    cases hp : compile_procs m.funcName 0 m.functions with
    | error e =>
      simp [compile_module, hp] at h
    | ok procs =>
      refine ⟨procs, rfl, ?_⟩
      simp [compile_module, hp] at h
      exact h.symm
  · intro names idx f fs body more h1 h2
    simp [compile_procs, h1, h2]

/-- C8 (witness): instantiating the amended theorem at the concrete
one-function module exhibits its compiled output as the procedure section
followed by the entry block. -/
theorem c8_procs_then_trampoline_witness :
    ∃ procs, compile_procs moduleOne.funcName 0 moduleOne.functions =
        .ok procs ∧
      [MidenInst.proc "f1", MidenInst.push 1, MidenInst.begin,
        MidenInst.exec "f1", MidenInst.end_] =
        procs ++ [MidenInst.begin,
          MidenInst.exec (moduleOne.funcName moduleOne.start_func_idx),
          MidenInst.end_] :=
  c8_procs_then_trampoline.1 moduleOne
    [MidenInst.proc "f1", MidenInst.push 1, MidenInst.begin,
      MidenInst.exec "f1", MidenInst.end_] rfl

/-- C9 (counterexample): `Module::new` does not validate the start index,
so a constructor-produced module can have an out-of-range start index and
the start-function lookup used by the entry trampoline fails on it. -/
theorem c9_start_index_counterexample :
    (Module.new [] 5).function (Module.new [] 5).start_func_idx = none :=
  rfl

/-- C9 (amended): validity of the start index is established by
`Module::new` exactly when the supplied index is in range (it is not
checked), is preserved by `push_function` and by every successful
`set_function`, and the start-function lookup for the entry trampoline
succeeds whenever the index is valid. -/
theorem c9_start_index_preservation :
    (∀ (fs : List Func) (idx : Nat),
      (Module.new fs idx).startValid ↔ idx < fs.length) ∧
    (∀ (m : Module) (f : Func), m.startValid → (m.push_function f).1.startValid) ∧
    (∀ (m m' : Module) (idx : Nat) (f : Func),
      m.set_function idx f = some m' → m.startValid → m'.startValid) ∧
    (∀ m : Module, m.startValid → ∃ f, m.function m.start_func_idx = some f) := by
  refine ⟨fun fs idx => Iff.rfl, ?_, ?_, ?_⟩
  · intro m f h
    simp only [Module.push_function, Module.startValid, List.length_append] at *
    omega
  · intro m m' idx f hset h
    unfold Module.set_function at hset
    by_cases hlt : idx < m.functions.length
    · simp [hlt] at hset
      subst hset
      simpa [Module.startValid] using h
    · simp [hlt] at hset
  · intro m h
    exact ⟨_, List.get?_eq_get h⟩

/-- C9 (witness): the preservation statements applied to the concrete
one-function module: pushing a function keeps the start index valid,
replacing function 0 keeps it valid, and the start lookup succeeds. -/
theorem c9_start_index_preservation_witness :
    (moduleOne.push_function { name := "g", instructions := [] }).1.startValid ∧
    (Module.new [{ name := "g", instructions := [] }] 0).startValid ∧
    ∃ f, moduleOne.function moduleOne.start_func_idx = some f :=
  ⟨c9_start_index_preservation.2.1 moduleOne
      { name := "g", instructions := [] } (by decide),
   c9_start_index_preservation.2.2.1 moduleOne
      (Module.new [{ name := "g", instructions := [] }] 0) 0
      { name := "g", instructions := [] } rfl (by decide),
   c9_start_index_preservation.2.2.2 moduleOne (by decide)⟩

/-- C10: `Module::function` is total — it returns `some` of the `idx`-th
function exactly when `idx` is in range and `none` otherwise — whereas
`set_function` succeeds (does not panic) precisely when the index is in
range. -/
theorem c10_function_lookup_total :
    ∀ (m : Module) (idx : Nat) (f : Func),
      (m.function idx = if h : idx < m.functions.length
        then some (m.functions.get ⟨idx, h⟩) else none) ∧
      ((m.set_function idx f).isSome ↔ idx < m.functions.length) := by
  intro m idx f
  constructor
  · by_cases h : idx < m.functions.length
    · simp [Module.function, h, List.get?_eq_get]
    · simp only [Module.function, h, dif_neg, not_false_iff]
      exact List.get?_eq_none.mpr (by omega)
  · unfold Module.set_function
    by_cases h : idx < m.functions.length <;> simp [h]

end Ominzk
